import Mathlib

/-!
Verification development for the ASPEED HACE digest/HMAC driver core
(`aspeed-rust`): a shallow embedding of the block-accumulation algorithm
(`update`), the Merkle–Damgård padding routine (`fill_padding`), the HMAC
key/pad setup, the multi-context provider with lazy context switching, and
the session manager, together with theorems settling the specification
claims about them.

Machine integers are embedded as `Nat` with explicit `% 2^w` at the points
where the source performs wrapping/overflowing machine arithmetic.  Byte
buffers are embedded as `List Nat`.  The hardware compression engine is
kept abstract: what the driver controls is exactly the ordered byte stream
handed to the engine, so digest equality is stated as equality of those
streams (and, derived from it, equality of any fold over them).
-/

set_option maxRecDepth 8000

namespace Aspeed

/-- Bytes are naturals (< 256 in every reachable state). -/
abbrev Byte := Nat

/-- `u64::to_be_bytes`: the eight big-endian bytes of a 64-bit word. -/
def be64 (x : Nat) : List Byte :=
  [x / 2 ^ 56 % 256, x / 2 ^ 48 % 256, x / 2 ^ 40 % 256, x / 2 ^ 32 % 256,
   x / 2 ^ 24 % 256, x / 2 ^ 16 % 256, x / 2 ^ 8 % 256, x % 256]

/-- Size in bytes of the length field appended by `fill_padding`:
8 bytes for 64-byte-block algorithms, 16 bytes for 128-byte-block ones
(`hash.rs`, `Controller::fill_padding`). -/
def lenFieldSize (bs : Nat) : Nat := if bs = 64 then 8 else 16

/-- Number of bytes from the `0x80` marker up to (excluding) the length
field, as computed by `Controller::fill_padding` (`hash.rs` lines 438-451)
from `index = (bufcnt + remaining) & (block_size - 1)`.  For the power-of-two
block sizes 64 and 128 the masking equals `% block_size`. -/
def padLen (bs idx : Nat) : Nat :=
  if bs = 64 then
    if idx < 56 then 56 - idx else 64 + 56 - idx
  else
    if idx < 112 then 112 - idx else 128 + 112 - idx

/-- The bytes `fill_padding` appends after the message: one `0x80`, then
zeros, then the big-endian bit length (`hash.rs` lines 453-468).  For
64-byte blocks the length field is `digcnt[0] << 3` (8 bytes); for
128-byte blocks it is the 16-byte value whose high word is
`(digcnt[1] << 3) | (digcnt[0] >> 61)` and whose low word is
`digcnt[0] << 3`, all in wrapping `u64` arithmetic. -/
def padSuffix (bs bufcnt d0 d1 : Nat) : List Byte :=
  let idx := bufcnt % bs
  let p := padLen bs idx
  if bs = 64 then
    0x80 :: List.replicate (p - 1) 0 ++ be64 (d0 * 8 % 2 ^ 64)
  else
    0x80 :: List.replicate (p - 1) 0 ++
      be64 ((d1 * 8 % 2 ^ 64) ||| d0 / 2 ^ 61) ++ be64 (d0 * 8 % 2 ^ 64)

/-- Overwrite `l` starting at position `i` with the bytes of `v`
(the embedding of `buf[i..i+v.len()].copy_from_slice(v)`; callers
establish `i + v.length ≤ l.length`, the condition under which the
source slice indexing does not panic). -/
def writeAt (l : List Byte) (i : Nat) (v : List Byte) : List Byte :=
  l.take i ++ v ++ l.drop (i + v.length)

/-- `Controller::fill_padding` (`hash.rs` lines 433-469) acting on the
256-byte staging buffer: writes `0x80`, the zero padding and the
big-endian bit length into `buffer` starting at `bufcnt`, and returns the
new buffer together with the new `bufcnt`
(`bufcnt + padlen + 8` resp. `bufcnt + padlen + 16`). -/
def fillPadding (bs : Nat) (buffer : List Byte) (bufcnt d0 d1 remaining : Nat) :
    List Byte × Nat :=
  let idx := (bufcnt + remaining) % bs
  let p := padLen bs idx
  let buf1 := writeAt buffer bufcnt (0x80 :: List.replicate (p - 1) 0)
  if bs = 64 then
    (writeAt buf1 (bufcnt + p) (be64 (d0 * 8 % 2 ^ 64)), bufcnt + p + 8)
  else
    (writeAt (writeAt buf1 (bufcnt + p) (be64 ((d1 * 8 % 2 ^ 64) ||| d0 / 2 ^ 61)))
      (bufcnt + p + 8) (be64 (d0 * 8 % 2 ^ 64)), bufcnt + p + 16)

/-!  ## Byte-stream model of the block-accumulation algorithm

The hardware digest state is written only by `start_hash_operation`, which
consumes the bytes described by the scatter-gather descriptors, in order.
`HwState` tracks the pending staging bytes (`buffer`, whose length is the
source's `bufcnt`), the two 64-bit `digcnt` words, and the full ordered
byte stream dispatched to the engine so far. -/
structure HwState where
  buffer : List Byte
  digcnt0 : Nat
  digcnt1 : Nat
  dispatched : List Byte
deriving Repr, DecidableEq

/-- State right after `DigestInit::init`: zero counters, empty buffer
(`hash_owned.rs` lines 144-158). -/
def initHw : HwState := ⟨[], 0, 0, []⟩

/-- `OwnedDigestContext::update` (`digest/hash_owned.rs` lines 167-232) for
block size `bs`, as a function of the pending/dispatched byte streams.
`u32`/`u64` arithmetic is embedded with explicit `% 2^32` / `% 2^64`;
`u32::try_from(data.len()).unwrap_or(u32::MAX)` is `min len (2^32-1)`.
The scatter-gather construction dispatches, in order: the pending buffer
(descriptor 0, when `bufcnt != 0`) and the whole-block prefix of `data`
(descriptor 0 or 1) — except that when `total_len == bufcnt` descriptor 0
is redirected at `data` itself.  The leftover tail of `data` becomes the
new pending buffer (`bufcnt = remaining`, or 0 when there is no leftover). -/
def ownedUpdate (bs : Nat) (s : HwState) (data : List Byte) : HwState :=
  let inputLen := min data.length (2 ^ 32 - 1)
  let d0 := (s.digcnt0 + inputLen) % 2 ^ 64
  let d1 := if s.digcnt0 + inputLen < 2 ^ 64 then s.digcnt1
            else (s.digcnt1 + 1) % 2 ^ 64
  let bufcnt := s.buffer.length
  if (bufcnt + inputLen) % 2 ^ 32 < bs then
    { s with buffer := s.buffer ++ data, digcnt0 := d0, digcnt1 := d1 }
  else
    let remaining := ((inputLen + bufcnt) % 2 ^ 32) % bs
    let totalLen := (inputLen + bufcnt) % 2 ^ 32 - remaining
    let newDispatched :=
      if bufcnt ≠ 0 then
        if totalLen = bufcnt then s.dispatched ++ data.take bufcnt
        else s.dispatched ++ s.buffer ++ data.take (totalLen - bufcnt)
      else s.dispatched ++ data.take totalLen
    let leftover := (data.drop (totalLen - bufcnt)).take remaining
    { buffer := if remaining ≠ 0 then leftover else [],
      digcnt0 := d0, digcnt1 := d1, dispatched := newDispatched }

/-- `OpContextImpl::update` of the scoped API (`hash.rs` lines 515-562).
Identical to `ownedUpdate` except that the input length is cast with a
wrapping `as u32`, and — crucially — the final `bufcnt` update is guarded
by `if remaining != 0` with NO else branch: when the leftover is zero the
pending buffer (and `bufcnt`) keep their previous, already-dispatched
content. -/
def hashRsUpdate (bs : Nat) (s : HwState) (data : List Byte) : HwState :=
  let inputLen := data.length % 2 ^ 32
  let d0 := (s.digcnt0 + inputLen) % 2 ^ 64
  let d1 := if s.digcnt0 + inputLen < 2 ^ 64 then s.digcnt1
            else (s.digcnt1 + 1) % 2 ^ 64
  let bufcnt := s.buffer.length
  if (bufcnt + inputLen) % 2 ^ 32 < bs then
    { s with buffer := s.buffer ++ data, digcnt0 := d0, digcnt1 := d1 }
  else
    let remaining := ((inputLen + bufcnt) % 2 ^ 32) % bs
    let totalLen := (inputLen + bufcnt) % 2 ^ 32 - remaining
    let newDispatched :=
      if bufcnt ≠ 0 then
        if totalLen = bufcnt then s.dispatched ++ data.take bufcnt
        else s.dispatched ++ s.buffer ++ data.take (totalLen - bufcnt)
      else s.dispatched ++ data.take totalLen
    let leftover := (data.drop (totalLen - bufcnt)).take remaining
    { buffer := if remaining ≠ 0 then leftover else s.buffer,
      digcnt0 := d0, digcnt1 := d1, dispatched := newDispatched }

/-- The complete byte stream the engine has consumed once `finalize` runs
(`digest/hash_owned.rs` lines 234-274, `hash.rs` lines 565-598): everything
dispatched by earlier updates, then the final block = pending buffer plus
the `fill_padding` suffix, dispatched as one last scatter-gather entry of
length `bufcnt`. -/
def finalStream (bs : Nat) (s : HwState) : List Byte :=
  s.dispatched ++ s.buffer ++ padSuffix bs s.buffer.length s.digcnt0 s.digcnt1

/-- Run a sequence of owned-API updates from a state. -/
def runOwned (bs : Nat) (s : HwState) (msgs : List (List Byte)) : HwState :=
  msgs.foldl (ownedUpdate bs) s

/-- Run a sequence of scoped-API (`hash.rs`) updates from a state. -/
def runHashRs (bs : Nat) (s : HwState) (msgs : List (List Byte)) : HwState :=
  msgs.foldl (hashRsUpdate bs) s

/-! ## Algorithms -/

/-- The hash algorithms supported by the owned digest / HMAC APIs
(`HashAlgo` in `hash.rs`, restricted to the variants the owned API and
`hmac_impl.rs` instantiate: SHA-256, SHA-384, SHA-512). -/
inductive HashAlgo
  | sha256
  | sha384
  | sha512
deriving DecidableEq, Repr

/-- `HashAlgo::block_size` (`hash.rs` lines 209-216). -/
def HashAlgo.blockSize : HashAlgo → Nat
  | .sha256 => 64
  | .sha384 => 128
  | .sha512 => 128

/-- `HashAlgo::digest_size` (`hash.rs` lines 199-207). -/
def HashAlgo.digestSize : HashAlgo → Nat
  | .sha256 => 32
  | .sha384 => 48
  | .sha512 => 64

/-- Length of the fixed-size `MacAlgorithm::Key` array each algorithm
declares in `hmac_impl.rs` (`[u8; 32]`, `Digest48`, `Digest64`). -/
def HashAlgo.keySize : HashAlgo → Nat
  | .sha256 => 32
  | .sha384 => 48
  | .sha512 => 64

/-! ## The hardware context record

`AspeedHashContext` as saved/restored by the multi-context provider:
the fields of the record in `hash.rs` (sg, digest, method, block_size,
digcnt, bufcnt, buffer, iv_size) plus the HMAC fields the `digest`
modules use (`key`, `key_len`, `ipad`, `opad`).  The defining module
`digest/hace_controller.rs` is not present in the sources; the HMAC
field sizes are modelled from the spec: `ipad`/`opad` span the full
block size (at most 128 bytes) and `key` holds at most 64 bytes. -/

/-- One scatter-gather descriptor (`AspeedSg` in `hash.rs`). -/
structure Sg where
  len : Nat
  addr : Nat
deriving DecidableEq, Repr

/-- The hardware-visible hash context record. -/
structure Ctx where
  sg0 : Sg
  sg1 : Sg
  digest : List Byte    -- [u8; 64]
  method : Nat
  blockSize : Nat
  digcnt0 : Nat         -- digcnt[0] : u64
  digcnt1 : Nat         -- digcnt[1] : u64
  bufcnt : Nat
  buffer : List Byte    -- [u8; 256]
  ivSize : Nat
  key : List Byte       -- [u8; 64]
  keyLen : Nat
  ipad : List Byte      -- [u8; 128]
  opad : List Byte      -- [u8; 128]
deriving DecidableEq, Repr

/-- `AspeedHashContext::default()` / a fully zero-filled context record:
every byte of every field is zero. -/
def zeroCtx : Ctx :=
  { sg0 := ⟨0, 0⟩, sg1 := ⟨0, 0⟩, digest := List.replicate 64 0, method := 0,
    blockSize := 0, digcnt0 := 0, digcnt1 := 0, bufcnt := 0,
    buffer := List.replicate 256 0, ivSize := 0, key := List.replicate 64 0,
    keyLen := 0, ipad := List.replicate 128 0, opad := List.replicate 128 0 }

/-! ## HMAC layer (`hace/hmac_impl.rs`) -/

/-- `proposed_traits::mac::ErrorKind` variants the driver produces. -/
inductive ErrorKind
  | invalidInputLength
  | updateError
deriving DecidableEq, Repr

/-- The `ipad`/`opad` contents produced by `HaceController::setup_context`
(`hace/hmac_impl.rs` lines 166-184): the pad is zero-filled, the key bytes
are written as `key[i] ^ x`, and the remaining bytes up to the block size
are XORed in place (`0 ^ x`); bytes beyond the block size stay zero. -/
def padFromKey (key : List Byte) (bs x : Nat) : List Byte :=
  (List.range 128).map fun i =>
    if i < key.length then key.getD i 0 ^^^ x
    else if i < bs then 0 ^^^ x
    else 0

/-- `HaceController::setup_context` (`hace/hmac_impl.rs` lines 147-187):
rejects a key longer than the block size with `InvalidInputLength`
(no hashing, no truncation); otherwise resets the context
(`init_context`, whose hash-state effects are not relevant to the pad
contents) and builds `ipad`/`opad` from the key with the `0x36`/`0x5c`
constants. -/
def setupContext (algo : HashAlgo) (key : List Byte) (c : Ctx) : Except ErrorKind Ctx :=
  let bs := algo.blockSize
  if key.length > bs then .error .invalidInputLength
  else .ok { c with keyLen := key.length,
                    ipad := padFromKey key bs 0x36,
                    opad := padFromKey key bs 0x5c }

/-- Outcome of one driver operation: normal return, an `Err(..)` return,
or a Rust panic from an out-of-bounds slice index. -/
inductive MacOutcome
  | ok
  | errKind (k : ErrorKind)
  | outOfBounds
deriving DecidableEq, Repr

/-- `MacOp::update` (`hace/hmac_impl.rs` lines 206-251, identically
`digest/hmac.rs` lines 208-254), reduced to its outcome as a function of
the input length.  In source order:
`buffer[..bs] ← ipad` (in bounds, `bs ≤ 128`); then
`buffer[bs..bs+input.len()] ← input`, which panics when
`bs + len > 256`; then `bufcnt += u32::try_from(input.len())?`, which is
the only `InvalidInputLength` return (`len ≥ 2^32` — unreachable, since
the preceding copy already panics for any `len > 256 - bs`); then
`fill_padding` on `bufcnt = bs + len`, which panics when the padding or
length field would run past the 256-byte buffer; then the outer
`opad ++ digest` pass, whose `fill_padding` always fits for the three
supported algorithms. -/
def hmacUpdate (algo : HashAlgo) (inputLen : Nat) : MacOutcome :=
  let bs := algo.blockSize
  let ds := algo.digestSize
  if 256 < bs + inputLen then .outOfBounds
  else if 2 ^ 32 ≤ inputLen then .errKind .invalidInputLength
  else
    let c1 := bs + inputLen
    if 256 < c1 + padLen bs (c1 % bs) + lenFieldSize bs then .outOfBounds
    else
      let c2 := bs + ds
      if 256 < c2 + padLen bs (c2 % bs) + lenFieldSize bs then .outOfBounds
      else .ok

/-! ## Multi-context provider (`digest/multi_context.rs`) -/

/-- `digest::traits::ContextError`. -/
inductive ContextError
  | sessionOutOfBounds
  | sessionNotAllocated
  | contextSwitchFailed
deriving DecidableEq, Repr

/-- `MultiContextProvider`: `MAX_SESSIONS = 4` storage slots
(`MaybeUninit<AspeedHashContext>` modelled as `Option Ctx`, `none` =
uninitialized), the allocation bitmap, the active and last-loaded slot
ids and the configured maximum. -/
structure Multi where
  contexts : List (Option Ctx)  -- length 4
  allocated : List Bool         -- length 4
  activeId : Nat
  lastLoaded : Option Nat
  maxSessions : Nat
deriving DecidableEq, Repr

/-- The provider together with the single shared hardware-resident
context (`HASH_CTX` behind `shared_hash_ctx()`). -/
structure MultiHw where
  multi : Multi
  hw : Ctx
deriving DecidableEq, Repr

/-- `MultiContextProvider::new` (lines 74-85): fails for
`max_sessions == 0 || max_sessions > MAX_SESSIONS` (4). -/
def multiNew (n : Nat) : Option Multi :=
  if n = 0 ∨ n > 4 then none
  else some ⟨List.replicate 4 none, List.replicate 4 false, 0, none, n⟩

/-- `MultiContextProvider::allocate_session` (lines 93-111): first free
slot below `max_sessions` is marked allocated and its storage initialized
with a default context; `None` models `Err(SessionError)`. -/
def allocateSession (m : Multi) : Option (Multi × Nat) :=
  match (m.allocated.take m.maxSessions).findIdx? (fun b => !b) with
  | none => none
  | some id =>
      some ({ m with allocated := m.allocated.set id true,
                     contexts := m.contexts.set id (some zeroCtx) }, id)

/-- `MultiContextProvider::release_session` (lines 120-143): for an
in-range, allocated id, clears the allocation bit, zero-fills every byte
of the slot's stored context, and invalidates `last_loaded` if it named
this slot; otherwise does nothing. -/
def releaseSession (m : Multi) (id : Nat) : Multi :=
  if id < m.allocated.length then
    if id < m.maxSessions ∧ m.allocated.getD id false then
      { m with allocated := m.allocated.set id false,
               contexts := m.contexts.set id (some zeroCtx),
               lastLoaded := if m.lastLoaded = some id then none else m.lastLoaded }
    else m
  else m

/-- `MultiContextProvider::save_hw_to_slot` (lines 179-225): bounds and
allocation checks, then copies every field of the hardware context
(digest, digcnt, bufcnt, buffer, method, block_size, iv_size, key,
key_len, ipad, opad, sg — the whole record) into the slot's storage. -/
def saveHwToSlot (s : MultiHw) (slot : Nat) : Except ContextError MultiHw :=
  if s.multi.maxSessions ≤ slot then .error .sessionOutOfBounds
  else if ¬ s.multi.allocated.getD slot false then .error .sessionNotAllocated
  else .ok { s with multi :=
    { s.multi with contexts := s.multi.contexts.set slot (some s.hw) } }

/-- `MultiContextProvider::load_slot_to_hw` (lines 233-279): bounds and
allocation checks, then copies every field of the slot's stored context
into the hardware context.  An allocated slot is always initialized
(`allocate_session` writes a default record); reading an uninitialized
slot would be undefined behaviour in the source (`assume_init_ref`) and
is modelled as leaving the hardware context unchanged — the theorems
exclude it by hypothesis. -/
def loadSlotToHw (s : MultiHw) (slot : Nat) : Except ContextError MultiHw :=
  if s.multi.maxSessions ≤ slot then .error .sessionOutOfBounds
  else if ¬ s.multi.allocated.getD slot false then .error .sessionNotAllocated
  else match s.multi.contexts.getD slot none with
    | some c => .ok { s with hw := c }
    | none => .ok s

/-- `MultiContextProvider::ctx_mut` (lines 283-303): lazy context switch.
If the active slot is already loaded, nothing happens.  Otherwise the
hardware context is saved into the previously loaded slot (if any), the
active slot's saved state is loaded, and the active slot is recorded as
last loaded.  Errors from save/load are discarded (`let _ = ...`),
leaving the corresponding copy undone. -/
def ctxMut (s : MultiHw) : MultiHw :=
  if s.multi.lastLoaded = some s.multi.activeId then s
  else
    let s1 := match s.multi.lastLoaded with
      | some prev =>
          match saveHwToSlot s prev with
          | .ok s' => s'
          | .error _ => s
      | none => s
    let s2 := match loadSlotToHw s1 s.multi.activeId with
      | .ok s' => s'
      | .error _ => s1
    { s2 with multi := { s2.multi with lastLoaded := some s.multi.activeId } }

/-! ## Session manager (`digest/session.rs`) -/

/-- `session::SessionError`. -/
inductive SessionError
  | tooManySessions
  | invalidSession
  | controllerInUse
  | initializationFailed
  | updateFailed
  | finalizationFailed
  | invalidSessionCount
deriving DecidableEq, Repr

/-- `session::AlgorithmType`. -/
inductive AlgorithmType
  | sha256
  | sha384
  | sha512
deriving DecidableEq, Repr

/-- `session::SlotState`. -/
inductive SlotState
  | free
  | active
deriving DecidableEq, Repr

/-- `session::SessionSlot` metadata. -/
structure SessionSlot where
  state : SlotState
  sessionId : Nat               -- u32
  algorithm : Option AlgorithmType
deriving DecidableEq, Repr

/-- `SessionSlot::default()`. -/
def SessionSlot.dflt : SessionSlot := ⟨.free, 0, none⟩

/-- `SessionManager<N>` state: the controller (whose register handle is
elided; what matters to the session logic is the provider it carries and
whether the manager currently holds it), the N slot-metadata records and
the wrapping id counter. -/
structure Mgr where
  controller : Option Multi
  sessions : List SessionSlot   -- length N
  nextId : Nat                  -- u32
deriving DecidableEq, Repr

/-- `session::MAX_SESSIONS` (line 47). -/
def mgrMaxSessions : Nat := 8

/-- `SessionManager::<N>::new` (lines 261-276): rejects `N == 0 || N > 8`
with `InvalidSessionCount`, then builds `MultiContextProvider::new(N)`,
mapping its error to `InvalidSessionCount` as well. -/
def sessionManagerNew (n : Nat) : Except SessionError Mgr :=
  if n = 0 ∨ n > mgrMaxSessions then .error .invalidSessionCount
  else match multiNew n with
    | none => .error .invalidSessionCount
    | some prov => .ok ⟨some prov, List.replicate n SessionSlot.dflt, 0⟩

/-- A `SessionDigest`: the owned context (carrying the controller and
hence the provider), the provider slot id, the manager session id and
the manager slot index. -/
structure SDigest where
  provider : Multi
  providerSessionId : Nat
  managerSessionId : Nat
  slot : Nat
deriving DecidableEq, Repr

/-- `SessionManager::init_session` (lines 306-363), shared by
`init_sha256`/`init_sha384`/`init_sha512`: find the first free slot
(else `TooManySessions`, with nothing modified); take the controller
(else `ControllerInUse`); allocate a provider session (else
`TooManySessions` — on this path the taken controller is dropped);
activate it; run `DigestInit::init` (infallible; it programs the
hardware context — method, IV, counters — which does not touch the
session accounting modelled here); stamp a fresh wrapping id and mark
the slot active.  Returns the possibly-updated manager and the result. -/
def initSession (m : Mgr) (alg : AlgorithmType) : Mgr × Except SessionError SDigest :=
  match m.sessions.findIdx? (fun s => s.state == SlotState.free) with
  | none => (m, .error .tooManySessions)
  | some slot =>
    match m.controller with
    | none => (m, .error .controllerInUse)
    | some prov =>
      let m1 := { m with controller := none }
      match allocateSession prov with
      | none => (m1, .error .tooManySessions)
      | some (prov2, pid) =>
        let prov3 := { prov2 with activeId := pid }
        let mid := m1.nextId
        let m2 := { m1 with nextId := ((m1.nextId + 1) % 2 ^ 32),
                            sessions := m1.sessions.set slot ⟨.active, mid, some alg⟩ }
        (m2, .ok ⟨prov3, pid, mid, slot⟩)

/-- `SessionManager::finalize` (lines 372-427): validate the digest's
(slot, id) pair against the slot metadata (`InvalidSession` on
mismatch), activate its provider session and run `DigestOp::finalize`
(hardware-context effects elided), release the provider session, free
the slot and return the controller to the manager. -/
def finalizeSession (m : Mgr) (d : SDigest) : Mgr × Except SessionError Unit :=
  match m.sessions.get? d.slot with
  | none => (m, .error .invalidSession)
  | some sl =>
    if sl.sessionId ≠ d.managerSessionId then (m, .error .invalidSession)
    else
      let prov := releaseSession { d.provider with activeId := d.providerSessionId }
        d.providerSessionId
      ({ m with controller := some prov,
                sessions := m.sessions.set d.slot SessionSlot.dflt }, .ok ())

/-- `SessionManager::cancel` (lines 437-472): same validation, then
`OwnedDigestContext::cancel` (context cleanup, elided), release the
provider session, free the slot, return the controller. -/
def cancelSession (m : Mgr) (d : SDigest) : Mgr × Except SessionError Unit :=
  match m.sessions.get? d.slot with
  | none => (m, .error .invalidSession)
  | some sl =>
    if sl.sessionId ≠ d.managerSessionId then (m, .error .invalidSession)
    else
      let prov := releaseSession d.provider d.providerSessionId
      ({ m with controller := some prov,
                sessions := m.sessions.set d.slot SessionSlot.dflt }, .ok ())

/-! ## Helper lemmas -/

/-- Total number of input bytes across a sequence of update calls. -/
def totLen (msgs : List (List Byte)) : Nat := (msgs.map List.length).sum

lemma totLen_nil : totLen [] = 0 := rfl

lemma totLen_cons (m : List Byte) (ms : List (List Byte)) :
    totLen (m :: ms) = m.length + totLen ms := by
  simp [totLen]

/-- One `update` call, characterized: the dispatched-plus-pending stream is
extended by exactly the input bytes; the pending length becomes
`(bufcnt + len) % block_size`; `digcnt` advances with carry; the fast path
dispatches nothing and appends to the buffer; the slow path dispatches
exactly `total_len` bytes. -/
lemma ownedUpdate_step (bs : Nat) (hbs0 : 0 < bs) (hbs1 : bs ≤ 128)
    (s : HwState) (data : List Byte)
    (hb : s.buffer.length < bs) (hn : data.length + 128 < 2 ^ 32) :
    (ownedUpdate bs s data).dispatched ++ (ownedUpdate bs s data).buffer
        = s.dispatched ++ s.buffer ++ data ∧
    (ownedUpdate bs s data).buffer.length
        = (s.buffer.length + data.length) % bs ∧
    (ownedUpdate bs s data).digcnt0 = (s.digcnt0 + data.length) % 2 ^ 64 ∧
    (ownedUpdate bs s data).digcnt1
        = (if s.digcnt0 + data.length < 2 ^ 64 then s.digcnt1
           else (s.digcnt1 + 1) % 2 ^ 64) ∧
    (s.buffer.length + data.length < bs →
        (ownedUpdate bs s data).dispatched = s.dispatched ∧
        (ownedUpdate bs s data).buffer = s.buffer ++ data) ∧
    (bs ≤ s.buffer.length + data.length →
        (ownedUpdate bs s data).dispatched.length
          = s.dispatched.length
            + (s.buffer.length + data.length
                - (s.buffer.length + data.length) % bs)) := by
  have hmin : min data.length (2 ^ 32 - 1) = data.length :=
    min_eq_left (by omega)
  have hsum : (s.buffer.length + data.length) % 2 ^ 32
      = s.buffer.length + data.length := Nat.mod_eq_of_lt (by omega)
  have hsum' : (data.length + s.buffer.length) % 2 ^ 32
      = data.length + s.buffer.length := by
    rw [Nat.add_comm data.length]; exact hsum
  unfold ownedUpdate
  simp only [hmin, hsum, hsum']
  by_cases hfast : s.buffer.length + data.length < bs
  · rw [if_pos hfast]
    refine ⟨by simp, by simpa using (Nat.mod_eq_of_lt hfast).symm, rfl, rfl,
      fun _ => ⟨rfl, rfl⟩, fun h => absurd hfast (by omega)⟩
  · rw [if_neg hfast]
    have hslow : bs ≤ s.buffer.length + data.length := by omega
    set n := data.length with hndef
    set b := s.buffer.length with hbdef
    have hr : (n + b) % bs < bs := Nat.mod_lt _ hbs0
    have hq1 : 1 ≤ (n + b) / bs := (Nat.one_le_div_iff hbs0).mpr (by omega)
    obtain ⟨Q, hQbs, hQ⟩ : ∃ Q, bs ≤ Q ∧ Q + (n + b) % bs = n + b :=
      ⟨_, Nat.le_mul_of_pos_right bs hq1, Nat.div_add_mod (n + b) bs⟩
    set r := (n + b) % bs with hrdef
    have hc : (b + n) % bs = r := by rw [Nat.add_comm b n]
    have hrn : r ≤ n := by omega
    have htb : n + b - r - b = n - r := by omega
    -- the redirect branch (total_len == bufcnt with bufcnt ≠ 0) is dead
    have hdead : n + b - r = b → b = 0 := by intro habs; omega
    have hlendrop : (data.drop (n - r)).length = r := by
      simp only [List.length_drop, ← hndef]; omega
    have hdrop : ((data.drop (n - r)).take r) = data.drop (n - r) :=
      List.take_of_length_le (le_of_eq hlendrop)
    have hbuf' : (if r ≠ 0 then (data.drop (n + b - r - b)).take r else [])
        = data.drop (n - r) := by
      rw [htb]
      by_cases hr0 : r = 0
      · simp only [hr0, ne_eq, not_true_eq_false, if_false, Nat.sub_zero]
        exact (List.drop_length data).symm
      · rw [if_pos hr0, hdrop]
    by_cases hb0 : b = 0
    · -- bufcnt = 0: single descriptor straight at the input
      have hbufnil : s.buffer = [] := by
        apply List.eq_nil_of_length_eq_zero; omega
      rw [if_neg (by omega : ¬ b ≠ 0)]
      refine ⟨?_, ?_, rfl, rfl, fun h => absurd h (by omega), fun _ => ?_⟩
      · simp only [hbuf']
        have h1 : n + b - r = n - r := by omega
        rw [h1, hbufnil]
        simp [List.take_append_drop]
      · simp only [hbuf', hlendrop]; omega
      · simp only [List.length_append, List.length_take, ← hndef]
        omega
    · -- bufcnt ≠ 0: pending buffer is descriptor 0, input tail descriptor 1
      rw [if_pos hb0, if_neg (fun habs => hb0 (hdead habs))]
      refine ⟨?_, ?_, rfl, rfl, fun h => absurd h (by omega), fun _ => ?_⟩
      · simp only [hbuf']
        rw [htb]
        simp [List.append_assoc, List.take_append_drop]
      · simp only [hbuf', hlendrop]; omega
      · simp only [List.length_append, List.length_take, ← hndef, ← hbdef]
        omega

/-- Invariant of a run of `update` calls: the full dispatched-plus-pending
stream is the concatenation of all inputs; the pending length is the input
total mod the block size; the 128-bit `digcnt` value advances by the input
total mod `2^128`. -/
lemma runOwned_inv (bs : Nat) (hbs0 : 0 < bs) (hbs1 : bs ≤ 128) :
    ∀ (msgs : List (List Byte)) (s : HwState),
      (∀ x ∈ msgs, x.length + 128 < 2 ^ 32) →
      s.buffer.length < bs → s.digcnt0 < 2 ^ 64 → s.digcnt1 < 2 ^ 64 →
      (runOwned bs s msgs).dispatched ++ (runOwned bs s msgs).buffer
          = s.dispatched ++ s.buffer ++ msgs.flatten ∧
      (runOwned bs s msgs).buffer.length
          = (s.buffer.length + totLen msgs) % bs ∧
      (runOwned bs s msgs).digcnt0 < 2 ^ 64 ∧
      (runOwned bs s msgs).digcnt1 < 2 ^ 64 ∧
      (runOwned bs s msgs).digcnt1 * 2 ^ 64 + (runOwned bs s msgs).digcnt0
          = (s.digcnt1 * 2 ^ 64 + s.digcnt0 + totLen msgs) % 2 ^ 128 := by
  intro msgs
  induction msgs with
  | nil =>
      intro s _ hb h0 h1
      refine ⟨by simp [runOwned], by simp [runOwned, totLen, Nat.mod_eq_of_lt hb],
        h0, h1, ?_⟩
      simp only [runOwned, List.foldl_nil, totLen, List.map_nil, List.sum_nil,
        Nat.add_zero]
      omega
  | cons m ms ih =>
      intro s hm hb h0 h1
      have hm0 : m.length + 128 < 2 ^ 32 := hm m (by simp)
      obtain ⟨hs1, hs2, hs3, hs4, _, _⟩ :=
        ownedUpdate_step bs hbs0 hbs1 s m hb hm0
      have hrun : runOwned bs s (m :: ms) = runOwned bs (ownedUpdate bs s m) ms :=
        rfl
      set s1 := ownedUpdate bs s m with hs1def
      have hb1 : s1.buffer.length < bs := by rw [hs2]; exact Nat.mod_lt _ hbs0
      have h01 : s1.digcnt0 < 2 ^ 64 := by
        rw [hs3]; exact Nat.mod_lt _ (by norm_num)
      have h11 : s1.digcnt1 < 2 ^ 64 := by
        rw [hs4]; split
        · exact h1
        · exact Nat.mod_lt _ (by norm_num)
      have hcomb : s1.digcnt1 * 2 ^ 64 + s1.digcnt0
          = (s.digcnt1 * 2 ^ 64 + s.digcnt0 + m.length) % 2 ^ 128 := by
        rw [hs3, hs4]; split <;> omega
      obtain ⟨i1, i2, i3, i4, i5⟩ :=
        ih s1 (fun x hx => hm x (by simp [hx])) hb1 h01 h11
      rw [hrun]
      refine ⟨?_, ?_, i3, i4, ?_⟩
      · rw [i1, List.flatten_cons, hs1]
        simp [List.append_assoc]
      · rw [i2, hs2, totLen_cons, Nat.mod_add_mod, Nat.add_assoc]
      · rw [i5, hcomb, Nat.mod_add_mod, totLen_cons, Nat.add_assoc,
          Nat.add_assoc]

/-! ## Claim theorems -/

/-- C1: Incremental equivalence.  For every supported algorithm and every
split `m = a ++ b ++ c` (with the total small enough that the `u32` length
casts are exact), the byte stream the engine consumes — and hence the
digest, which is a function of that stream — is the same for
`init; update a; update b; update c; finalize` and for
`init; update m; finalize` in the owned API (`digest/hash_owned.rs`).
The scoped API (`hash.rs`) violates this: because its `update` leaves
`bufcnt` untouched when the leftover is zero, splitting a 64-byte message
as 32 + 32 + 0 makes `finalize` re-dispatch the first 32 bytes as stale
buffer content, so the two streams differ. -/
theorem c1_incremental_equivalence :
    (∀ (algo : HashAlgo) (a b c : List Byte),
        a.length + b.length + c.length + 128 < 2 ^ 32 →
        finalStream algo.blockSize (runOwned algo.blockSize initHw [a, b, c])
          = finalStream algo.blockSize
              (runOwned algo.blockSize initHw [a ++ b ++ c])) ∧
    finalStream 64 (runHashRs 64 initHw
        [List.replicate 32 1, List.replicate 32 2, []])
      ≠ finalStream 64 (runHashRs 64 initHw
        [List.replicate 32 1 ++ List.replicate 32 2 ++ []]) := by
  constructor
  · intro algo a b c hlen
    have hbs0 : 0 < algo.blockSize := by cases algo <;> decide
    have hbs1 : algo.blockSize ≤ 128 := by cases algo <;> decide
    obtain ⟨u1, u2, u3, u4, u5⟩ :=
      runOwned_inv algo.blockSize hbs0 hbs1 [a, b, c] initHw
        (by intro x hx; simp at hx
            rcases hx with rfl | rfl | rfl <;> omega)
        (by simpa [initHw] using hbs0) (by norm_num [initHw])
        (by norm_num [initHw])
    obtain ⟨v1, v2, v3, v4, v5⟩ :=
      runOwned_inv algo.blockSize hbs0 hbs1 [a ++ b ++ c] initHw
        (by intro x hx; simp at hx
            subst hx; simp; omega)
        (by simpa [initHw] using hbs0) (by norm_num [initHw])
        (by norm_num [initHw])
    set u := runOwned algo.blockSize initHw [a, b, c]
    set v := runOwned algo.blockSize initHw [a ++ b ++ c]
    have harg : totLen [a, b, c] = totLen [a ++ b ++ c] := by
      simp [totLen]
    have hstream : u.dispatched ++ u.buffer = v.dispatched ++ v.buffer := by
      rw [u1, v1]; simp
    have hbuflen : u.buffer.length = v.buffer.length := by
      rw [u2, v2, harg]
    have hcombeq : u.digcnt1 * 2 ^ 64 + u.digcnt0
        = v.digcnt1 * 2 ^ 64 + v.digcnt0 := by
      rw [u5, v5, harg]
    have hd0 : u.digcnt0 = v.digcnt0 := by omega
    have hd1 : u.digcnt1 = v.digcnt1 := by omega
    obtain ⟨hdisp, hbuf⟩ := List.append_inj' hstream hbuflen
    unfold finalStream
    rw [hdisp, hbuf, hd0, hd1]
  · decide

/-- Witness for C1: the equivalence applied at SHA-256 with the concrete
split `[1] ++ [2] ++ [3]`. -/
theorem c1_witness :
    (([1] : List Byte).length + ([2] : List Byte).length
        + ([3] : List Byte).length + 128 < 2 ^ 32) ∧
    finalStream HashAlgo.sha256.blockSize
        (runOwned HashAlgo.sha256.blockSize initHw [[1], [2], [3]])
      = finalStream HashAlgo.sha256.blockSize
          (runOwned HashAlgo.sha256.blockSize initHw [[1] ++ [2] ++ [3]]) :=
  ⟨by norm_num,
   c1_incremental_equivalence.1 HashAlgo.sha256 [1] [2] [3] (by norm_num)⟩

/-- C2: `update` buffering behaviour.  Fast path
(`bufcnt + len < block_size`): the data is appended to the pending buffer,
`bufcnt` grows by `len`, nothing is dispatched.  Slow path: exactly
`total_len = (bufcnt + len) − ((bufcnt + len) mod block_size)` bytes are
dispatched and afterwards `bufcnt` equals the leftover
`(bufcnt + len) mod block_size` — in the owned implementation
(`digest/hash_owned.rs`).  The scoped `hash.rs` implementation violates
the "0 when there is no leftover" part: with 32 pending bytes, a 32-byte
update on a 64-byte-block algorithm has leftover 0 but leaves
`bufcnt = 32` (no `else` branch resets it), unlike the owned code. -/
theorem c2_update_buffering :
    (∀ (bs : Nat) (s : HwState) (data : List Byte),
        0 < bs → bs ≤ 128 → s.buffer.length < bs →
        data.length + 128 < 2 ^ 32 →
        (s.buffer.length + data.length < bs →
            (ownedUpdate bs s data).dispatched = s.dispatched ∧
            (ownedUpdate bs s data).buffer = s.buffer ++ data ∧
            (ownedUpdate bs s data).buffer.length
              = s.buffer.length + data.length) ∧
        (bs ≤ s.buffer.length + data.length →
            (ownedUpdate bs s data).dispatched.length
              = s.dispatched.length + (s.buffer.length + data.length
                  - (s.buffer.length + data.length) % bs) ∧
            (ownedUpdate bs s data).buffer.length
              = (s.buffer.length + data.length) % bs)) ∧
    ((hashRsUpdate 64 ⟨List.replicate 32 1, 32, 0, []⟩
        (List.replicate 32 2)).buffer.length = 32 ∧
     (32 + 32) % 64 = 0 ∧
     (ownedUpdate 64 ⟨List.replicate 32 1, 32, 0, []⟩
        (List.replicate 32 2)).buffer.length = 0) := by
  constructor
  · intro bs s data hbs0 hbs1 hb hn
    obtain ⟨h1, h2, _, _, h5, h6⟩ := ownedUpdate_step bs hbs0 hbs1 s data hb hn
    refine ⟨fun hf => ?_, fun hs => ⟨h6 hs, h2⟩⟩
    obtain ⟨ha, hbuf⟩ := h5 hf
    exact ⟨ha, hbuf, by rw [hbuf]; simp⟩
  · decide

/-- Witness for C2: the owned-path property applied at block size 64 to a
concrete state with 3 pending bytes and a 2-byte input (fast path). -/
theorem c2_witness :
    ((0 : Nat) < 64 ∧ (64 : Nat) ≤ 128 ∧
      (HwState.mk [9, 9, 9] 3 0 []).buffer.length < 64 ∧
      ([5, 6] : List Byte).length + 128 < 2 ^ 32) ∧
    ((ownedUpdate 64 ⟨[9, 9, 9], 3, 0, []⟩ [5, 6]).dispatched = [] ∧
     (ownedUpdate 64 ⟨[9, 9, 9], 3, 0, []⟩ [5, 6]).buffer = [9, 9, 9] ++ [5, 6] ∧
     (ownedUpdate 64 ⟨[9, 9, 9], 3, 0, []⟩ [5, 6]).buffer.length = 3 + 2) :=
  ⟨⟨by norm_num, by norm_num, by norm_num, by norm_num⟩, by
    have h := (c2_update_buffering.1 64 ⟨[9, 9, 9], 3, 0, []⟩ [5, 6]
      (by norm_num) (by norm_num) (by norm_num) (by norm_num)).1 (by norm_num)
    simpa using h⟩

/-- C4: after `init` and any sequence of `update` calls (each small enough
for the `u32` length cast to be exact), the 128-bit value
`digcnt[1]·2^64 + digcnt[0]` equals the total number of input bytes passed
to `update`, mod `2^128`; padding is applied only at `finalize` and never
enters `digcnt`, which this exact equality reflects. -/
theorem c4_digcnt_counts_bytes (bs : Nat) (msgs : List (List Byte))
    (hbs0 : 0 < bs) (hbs1 : bs ≤ 128)
    (hm : ∀ x ∈ msgs, x.length + 128 < 2 ^ 32) :
    (runOwned bs initHw msgs).digcnt1 * 2 ^ 64
        + (runOwned bs initHw msgs).digcnt0
      = totLen msgs % 2 ^ 128 := by
  have h := (runOwned_inv bs hbs0 hbs1 msgs initHw hm
    (by simpa [initHw] using hbs0) (by norm_num [initHw])
    (by norm_num [initHw])).2.2.2.2
  simpa [initHw] using h

/-- Witness for C4: two updates of 2 and 3 bytes at block size 64 give
`digcnt = 5`. -/
theorem c4_witness :
    ((0 : Nat) < 64 ∧ (64 : Nat) ≤ 128) ∧
    (runOwned 64 initHw [[1, 2], [3, 4, 5]]).digcnt1 * 2 ^ 64
        + (runOwned 64 initHw [[1, 2], [3, 4, 5]]).digcnt0
      = totLen [[1, 2], [3, 4, 5]] % 2 ^ 128 :=
  ⟨⟨by norm_num, by norm_num⟩,
   c4_digcnt_counts_bytes 64 [[1, 2], [3, 4, 5]] (by norm_num) (by norm_num)
     (by decide)⟩

/-! ## Padding lemmas -/

lemma padLen_pos (bs idx : Nat) (hbs : bs = 64 ∨ bs = 128) (hidx : idx < bs) :
    1 ≤ padLen bs idx := by
  unfold padLen
  rcases hbs with rfl | rfl <;> norm_num <;> split <;> omega

lemma padSuffix_length (bs bufcnt d0 d1 : Nat) (hbs : bs = 64 ∨ bs = 128) :
    (padSuffix bs bufcnt d0 d1).length
      = padLen bs (bufcnt % bs) + lenFieldSize bs := by
  have hbs0 : 0 < bs := by rcases hbs with rfl | rfl <;> omega
  have hp := padLen_pos bs (bufcnt % bs) hbs (Nat.mod_lt _ hbs0)
  rcases hbs with rfl | rfl <;>
    simp [padSuffix, lenFieldSize, be64] <;> omega

/-- A `writeAt` splice that stays in bounds preserves the buffer length. -/
lemma writeAt_length (l v : List Byte) (i : Nat) (h : i + v.length ≤ l.length) :
    (writeAt l i v).length = l.length := by
  simp [writeAt]
  omega

/-- Two adjacent `writeAt` splices compose into one. -/
lemma writeAt_adjacent (l v1 v2 : List Byte) (i : Nat)
    (h : i + v1.length + v2.length ≤ l.length) :
    writeAt (writeAt l i v1) (i + v1.length) v2 = writeAt l i (v1 ++ v2) := by
  unfold writeAt
  have hi : i ≤ l.length := by omega
  have hlen1 : (l.take i ++ v1).length = i + v1.length := by
    simp [Nat.min_eq_left hi]
  rw [List.take_left' hlen1, ← List.drop_drop, List.drop_left' hlen1,
    List.drop_drop]
  simp [List.append_assoc, Nat.add_assoc]

/-- Reading inside a `writeAt` splice returns the written bytes. -/
lemma getD_writeAt (l v : List Byte) (i j : Nat) (hi : i + v.length ≤ l.length)
    (hj : j < v.length) : (writeAt l i v).getD (i + j) 0 = v.getD j 0 := by
  unfold writeAt
  have htake : (l.take i).length = i := by simp; omega
  rw [List.append_assoc, List.getD_append_right _ _ _ _ (by omega),
    htake, Nat.add_sub_cancel_left, List.getD_append _ _ _ _ hj]

/-- Indexing into a `0x80 :: zeros ++ field` padding suffix. -/
lemma markerField_getD (p : Nat) (hp : 1 ≤ p) (fld : List Byte) (j : Nat) :
    ((0x80 :: List.replicate (p - 1) 0) ++ fld).getD j 0
      = if j = 0 then 0x80 else if j < p then 0 else fld.getD (j - p) 0 := by
  have hlen : (0x80 :: List.replicate (p - 1) (0 : Byte)).length = p := by
    simp; omega
  rcases j with _ | k
  · rw [List.getD_append _ _ _ _ (by omega)]
    simp
  · by_cases hk : k + 1 < p
    · rw [List.getD_append _ _ _ _ (by omega), List.getD_cons_succ,
        if_neg (by omega), if_pos hk]
      simp [List.getD_eq_getElem?_getD, List.getElem?_replicate,
        show k < p - 1 by omega]
    · rw [List.getD_append_right _ _ _ _ (by omega), hlen,
        if_neg (by omega), if_neg hk]

/-- C3: `fill_padding` (called with `remaining = 0` at every call site)
writes, starting at `buffer[bufcnt]`: one `0x80` byte, then zeros so that
the data ends at `block_size − length_field_size (mod block_size)`
(56 mod 64, or 112 mod 128), then the big-endian bit length — 8 bytes of
`digcnt[0] << 3` for 64-byte blocks, or 16 bytes of
`(digcnt[1] << 3) | (digcnt[0] >> 61)` followed by `digcnt[0] << 3` for
128-byte blocks.  The resulting `bufcnt` is a nonzero multiple of the
block size, and a message ending exactly on the boundary receives one
full extra block of padding (`padlen = block_size`). -/
theorem c3_fill_padding (bs : Nat) (buffer : List Byte) (bufcnt d0 d1 : Nat)
    (hbs : bs = 64 ∨ bs = 128) (hbuf : buffer.length = 256)
    (hin : bufcnt + padLen bs (bufcnt % bs) + lenFieldSize bs ≤ 256) :
    (fillPadding bs buffer bufcnt d0 d1 0).1
        = writeAt buffer bufcnt (padSuffix bs bufcnt d0 d1) ∧
    (fillPadding bs buffer bufcnt d0 d1 0).2
        = bufcnt + padLen bs (bufcnt % bs) + lenFieldSize bs ∧
    (fillPadding bs buffer bufcnt d0 d1 0).2 % bs = 0 ∧
    (fillPadding bs buffer bufcnt d0 d1 0).2 ≠ 0 ∧
    (fillPadding bs buffer bufcnt d0 d1 0).1.getD bufcnt 0 = 0x80 ∧
    (∀ j, 0 < j → j < padLen bs (bufcnt % bs) →
        (fillPadding bs buffer bufcnt d0 d1 0).1.getD (bufcnt + j) 0 = 0) ∧
    (bufcnt + padLen bs (bufcnt % bs)) % bs = bs - lenFieldSize bs ∧
    (bs = 64 → ∀ j, j < 8 →
        (fillPadding bs buffer bufcnt d0 d1 0).1.getD
            (bufcnt + (padLen bs (bufcnt % bs) + j)) 0
          = (be64 (d0 * 8 % 2 ^ 64)).getD j 0) ∧
    (bs = 128 → ∀ j, j < 16 →
        (fillPadding bs buffer bufcnt d0 d1 0).1.getD
            (bufcnt + (padLen bs (bufcnt % bs) + j)) 0
          = (be64 ((d1 * 8 % 2 ^ 64) ||| d0 / 2 ^ 61)
              ++ be64 (d0 * 8 % 2 ^ 64)).getD j 0) ∧
    (bufcnt % bs = bs - lenFieldSize bs → padLen bs (bufcnt % bs) = bs) := by
  have hbs0 : 0 < bs := by rcases hbs with rfl | rfl <;> omega
  have hidx : bufcnt % bs < bs := Nat.mod_lt _ hbs0
  have hp1 : 1 ≤ padLen bs (bufcnt % bs) := padLen_pos _ _ hbs hidx
  have hsfxlen : (padSuffix bs bufcnt d0 d1).length
      = padLen bs (bufcnt % bs) + lenFieldSize bs := padSuffix_length _ _ _ _ hbs
  rcases hbs with rfl | rfl
  · -- block size 64
    set p := padLen 64 (bufcnt % 64) with hpdef
    have hpval : p = if bufcnt % 64 < 56 then 56 - bufcnt % 64
        else 64 + 56 - bufcnt % 64 := by
      rw [hpdef]; unfold padLen; norm_num
    have hlen8 : lenFieldSize 64 = 8 := by norm_num [lenFieldSize]
    rw [hlen8] at hin hsfxlen
    have hpeq : p + bufcnt % 64 = 56 ∨ p + bufcnt % 64 = 120 := by
      rw [hpval]; split <;> omega
    have hmar : (0x80 :: List.replicate (p - 1) (0 : Byte)).length = p := by
      simp; omega
    have hsfx : padSuffix 64 bufcnt d0 d1
        = (0x80 :: List.replicate (p - 1) 0) ++ be64 (d0 * 8 % 2 ^ 64) := by
      unfold padSuffix
      rw [if_pos rfl, ← hpdef, List.cons_append]
    have hkey : fillPadding 64 buffer bufcnt d0 d1 0
        = (writeAt buffer bufcnt (padSuffix 64 bufcnt d0 d1),
           bufcnt + p + 8) := by
      unfold fillPadding
      rw [if_pos rfl]
      simp only [Nat.add_zero, ← hpdef]
      rw [show bufcnt + p
            = bufcnt + (0x80 :: List.replicate (p - 1) (0 : Byte)).length from
          by rw [hmar]]
      rw [writeAt_adjacent _ _ _ _ (by simp [be64]; omega), hsfx]
    have hgd : ∀ j, j < p + 8 →
        (writeAt buffer bufcnt (padSuffix 64 bufcnt d0 d1)).getD (bufcnt + j) 0
          = (padSuffix 64 bufcnt d0 d1).getD j 0 := fun j hj =>
      getD_writeAt buffer _ bufcnt j (by omega) (by omega)
    rw [hkey]
    refine ⟨rfl, rfl, by omega, by omega, ?_, ?_, by omega, ?_, by omega, by omega⟩
    · have h0 := hgd 0 (by omega)
      rw [Nat.add_zero] at h0
      rw [h0, hsfx, markerField_getD p hp1 _ 0]
      norm_num
    · intro j hj0 hjp
      rw [hgd j (by omega), hsfx, markerField_getD p hp1 _ j,
        if_neg (by omega), if_pos (by omega)]
    · intro _ j hj
      rw [hgd (p + j) (by omega), hsfx, markerField_getD p hp1 _ (p + j),
        if_neg (by omega), if_neg (by omega), Nat.add_sub_cancel_left]
  · -- block size 128
    set p := padLen 128 (bufcnt % 128) with hpdef
    have hpval : p = if bufcnt % 128 < 112 then 112 - bufcnt % 128
        else 128 + 112 - bufcnt % 128 := by
      rw [hpdef]; unfold padLen; norm_num
    have hlen16 : lenFieldSize 128 = 16 := by norm_num [lenFieldSize]
    rw [hlen16] at hin hsfxlen
    have hpeq : p + bufcnt % 128 = 112 ∨ p + bufcnt % 128 = 240 := by
      rw [hpval]; split <;> omega
    have hmar : (0x80 :: List.replicate (p - 1) (0 : Byte)).length = p := by
      simp; omega
    have hsfx : padSuffix 128 bufcnt d0 d1
        = (0x80 :: List.replicate (p - 1) 0)
          ++ (be64 ((d1 * 8 % 2 ^ 64) ||| d0 / 2 ^ 61)
              ++ be64 (d0 * 8 % 2 ^ 64)) := by
      unfold padSuffix
      rw [if_neg (by norm_num), ← hpdef]
      simp [List.cons_append, List.append_assoc]
    have hkey : fillPadding 128 buffer bufcnt d0 d1 0
        = (writeAt buffer bufcnt (padSuffix 128 bufcnt d0 d1),
           bufcnt + p + 16) := by
      unfold fillPadding
      rw [if_neg (by norm_num)]
      simp only [Nat.add_zero, ← hpdef]
      rw [show bufcnt + p + 8
            = (bufcnt + p)
              + (be64 ((d1 * 8 % 2 ^ 64) ||| d0 / 2 ^ 61)).length from
          by simp [be64]]
      rw [writeAt_adjacent _ _ _ _ ?hb1]
      case hb1 =>
        rw [writeAt_length buffer _ bufcnt (by rw [hmar]; omega)]
        simp [be64]; omega
      rw [show bufcnt + p
            = bufcnt + (0x80 :: List.replicate (p - 1) (0 : Byte)).length from
          by rw [hmar]]
      rw [writeAt_adjacent _ _ _ _ (by simp [be64]; omega), hsfx]
    have hgd : ∀ j, j < p + 16 →
        (writeAt buffer bufcnt (padSuffix 128 bufcnt d0 d1)).getD (bufcnt + j) 0
          = (padSuffix 128 bufcnt d0 d1).getD j 0 := fun j hj =>
      getD_writeAt buffer _ bufcnt j (by omega) (by omega)
    rw [hkey]
    refine ⟨rfl, rfl, by omega, by omega, ?_, ?_, by omega, by omega, ?_, by omega⟩
    · have h0 := hgd 0 (by omega)
      rw [Nat.add_zero] at h0
      rw [h0, hsfx, markerField_getD p hp1 _ 0]
      norm_num
    · intro j hj0 hjp
      rw [hgd j (by omega), hsfx, markerField_getD p hp1 _ j,
        if_neg (by omega), if_pos (by omega)]
    · intro _ j hj
      rw [hgd (p + j) (by omega), hsfx, markerField_getD p hp1 _ (p + j),
        if_neg (by omega), if_neg (by omega), Nat.add_sub_cancel_left]

/-- Witness for C3: padding a 5-byte message (`digcnt = 5`) in a 64-byte
block: the new `bufcnt` is a multiple of 64 and the `0x80` marker sits at
position 5. -/
theorem c3_witness :
    (((64 : Nat) = 64 ∨ (64 : Nat) = 128) ∧
      (List.replicate 256 (0 : Byte)).length = 256 ∧
      5 + padLen 64 (5 % 64) + lenFieldSize 64 ≤ 256) ∧
    (fillPadding 64 (List.replicate 256 0) 5 5 0 0).2 % 64 = 0 ∧
    (fillPadding 64 (List.replicate 256 0) 5 5 0 0).1.getD 5 0 = 0x80 :=
  ⟨⟨Or.inl rfl, by simp, by decide⟩,
   (c3_fill_padding 64 (List.replicate 256 0) 5 5 0 (Or.inl rfl) (by simp)
      (by decide)).2.2.1,
   (c3_fill_padding 64 (List.replicate 256 0) 5 5 0 (Or.inl rfl) (by simp)
      (by decide)).2.2.2.2.1⟩

/-- Pointwise contents of the HMAC pads built by `setup_context`. -/
lemma padFromKey_getD (key : List Byte) (bs x i : Nat) (hi : i < 128) :
    (padFromKey key bs x).getD i 0
      = if i < key.length then key.getD i 0 ^^^ x
        else if i < bs then 0 ^^^ x else 0 := by
  unfold padFromKey
  rw [List.getD_eq_getElem?_getD, List.getElem?_map]
  simp [List.getElem?_range, hi]

/-- C5: HMAC key setup.  Every key accepted by the `MacInit` API is a
fixed-size array (32/48/64 bytes per algorithm) and hence never longer
than the algorithm's block size, so `setup_context` never rejects or
pre-hashes it and uses the key bytes directly; afterwards
`ipad[i] = key[i] ^ 0x36` and `opad[i] = key[i] ^ 0x5c` for `i` below the
key length, and `ipad[i] = 0x36`, `opad[i] = 0x5c` from the key length up
to the block size. -/
theorem c5_hmac_key_setup (algo : HashAlgo) (key : List Byte) (c : Ctx)
    (hk : key.length = algo.keySize) :
    algo.keySize ≤ algo.blockSize ∧
    ∃ c', setupContext algo key c = .ok c' ∧
      (∀ i, i < key.length →
          c'.ipad.getD i 0 = key.getD i 0 ^^^ 0x36 ∧
          c'.opad.getD i 0 = key.getD i 0 ^^^ 0x5c) ∧
      (∀ i, key.length ≤ i → i < algo.blockSize →
          c'.ipad.getD i 0 = 0x36 ∧ c'.opad.getD i 0 = 0x5c) := by
  have hks : algo.keySize ≤ algo.blockSize := by cases algo <;> decide
  have hbs : algo.blockSize ≤ 128 := by cases algo <;> decide
  refine ⟨hks, ⟨{ c with
                    keyLen := key.length
                    ipad := padFromKey key algo.blockSize 0x36
                    opad := padFromKey key algo.blockSize 0x5c }, ?_, ?_, ?_⟩⟩
  · unfold setupContext
    rw [if_neg (by omega)]
  · intro i hi
    refine ⟨?_, ?_⟩ <;>
      · dsimp only
        rw [padFromKey_getD key algo.blockSize _ i (by omega), if_pos hi]
  · intro i hlo hhi
    refine ⟨?_, ?_⟩ <;>
      · dsimp only
        rw [padFromKey_getD key algo.blockSize _ i (by omega),
          if_neg (by omega), if_pos hhi]
        simp

/-- Witness for C5: SHA-256 with the all-`0x07` 32-byte key; byte 0 of
`ipad` becomes `0x07 ^ 0x36 = 0x31`, byte 63 becomes `0x36`. -/
theorem c5_witness :
    (List.replicate 32 (7 : Byte)).length = HashAlgo.sha256.keySize ∧
    HashAlgo.sha256.keySize ≤ HashAlgo.sha256.blockSize ∧
    (padFromKey (List.replicate 32 7) 64 0x36).getD 0 0 = 0x31 ∧
    (padFromKey (List.replicate 32 7) 64 0x36).getD 63 0 = 0x36 := by
  refine ⟨by simp [HashAlgo.keySize], ?_, by decide, by decide⟩
  obtain ⟨hle, -⟩ := c5_hmac_key_setup .sha256 (List.replicate 32 7) zeroCtx
    (by simp [HashAlgo.keySize])
  exact hle

/-- C6 counterexample: an HMAC-SHA-256 update whose input makes
`block_size + len(input)` exceed the 256-byte working buffer does NOT
return the invalid-input-length error — the
`buffer[block_size..block_size+input.len()]` slice index is out of bounds
(a Rust panic), reached before the only `InvalidInputLength` check. -/
theorem c6_counterexample :
    hmacUpdate .sha256 193 = .outOfBounds ∧
    hmacUpdate .sha256 193 ≠ .errKind .invalidInputLength := by
  constructor
  · decide
  · decide

/-- C6 (amended): an oversized MAC key is rejected by `setup_context`
with `InvalidInputLength` rather than truncated; but an HMAC update whose
`block_size + len(input)` exceeds the 256-byte working buffer is not
rejected with an error — it violates the buffer bounds (panic); the
`InvalidInputLength` return on the input length is unreachable
(it would require `len ≥ 2^32`, while any `len > 256 − block_size`
already hits the out-of-bounds copy first). -/
theorem c6_amended (algo : HashAlgo) (key : List Byte) (c : Ctx) (len : Nat) :
    (algo.blockSize < key.length →
        setupContext algo key c = .error .invalidInputLength) ∧
    (256 < algo.blockSize + len → hmacUpdate algo len = .outOfBounds) := by
  constructor
  · intro h
    unfold setupContext
    rw [if_pos (by omega)]
  · intro h
    unfold hmacUpdate
    rw [if_pos (by omega)]

/-- Witness for C6 (amended): SHA-256 with a 65-byte key and a 193-byte
input. -/
theorem c6_witness :
    (HashAlgo.sha256.blockSize < (List.replicate 65 (0 : Byte)).length ∧
      256 < HashAlgo.sha256.blockSize + 193) ∧
    setupContext .sha256 (List.replicate 65 0) zeroCtx
        = .error .invalidInputLength ∧
    hmacUpdate .sha256 193 = .outOfBounds :=
  ⟨⟨by simp [HashAlgo.blockSize], by norm_num [HashAlgo.blockSize]⟩,
   (c6_amended .sha256 (List.replicate 65 0) zeroCtx 193).1
     (by simp [HashAlgo.blockSize]),
   (c6_amended .sha256 (List.replicate 65 0) zeroCtx 193).2
     (by norm_num [HashAlgo.blockSize])⟩

/-- C7: lazy context switching in `MultiContextProvider::ctx_mut`.  When
the active slot is the last-loaded one, the call is a pure no-op.  When it
differs, under the invariants the session manager maintains (both slots
in range and allocated, the active slot's storage initialized), the
hardware-resident context is saved — every field — into the previously
loaded slot (when one exists), the active slot's saved context is loaded
into the hardware context, and the active slot becomes the last-loaded
one. -/
theorem c7_lazy_context_switch (s : MultiHw) :
    (s.multi.lastLoaded = some s.multi.activeId → ctxMut s = s) ∧
    (∀ prev c,
        s.multi.lastLoaded = some prev →
        prev ≠ s.multi.activeId →
        prev < s.multi.maxSessions →
        s.multi.allocated.getD prev false = true →
        s.multi.activeId < s.multi.maxSessions →
        s.multi.allocated.getD s.multi.activeId false = true →
        s.multi.contexts.getD s.multi.activeId none = some c →
        ctxMut s = { multi := { s.multi with
                        contexts := s.multi.contexts.set prev (some s.hw)
                        lastLoaded := some s.multi.activeId }
                     hw := c }) ∧
    (∀ c, s.multi.lastLoaded = none →
        s.multi.activeId < s.multi.maxSessions →
        s.multi.allocated.getD s.multi.activeId false = true →
        s.multi.contexts.getD s.multi.activeId none = some c →
        ctxMut s = { multi := { s.multi with
                        lastLoaded := some s.multi.activeId }
                     hw := c }) := by
  refine ⟨fun h => ?_, fun prev c hll hne hp1 hp2 ha1 ha2 hctx => ?_, ?_⟩
  · unfold ctxMut
    rw [if_pos h]
  · have hsave : saveHwToSlot s prev
        = .ok { s with multi := { s.multi with
            contexts := s.multi.contexts.set prev (some s.hw) } } := by
      unfold saveHwToSlot
      rw [if_neg (by omega), if_neg (by simp only [hp2]; simp)]
    have hload : loadSlotToHw { s with multi := { s.multi with
          contexts := s.multi.contexts.set prev (some s.hw) } } s.multi.activeId
        = .ok { multi := { s.multi with
                  contexts := s.multi.contexts.set prev (some s.hw) }
                hw := c } := by
      unfold loadSlotToHw
      rw [if_neg (by simp; omega), if_neg (by simp only [ha2]; simp)]
      have hget : (s.multi.contexts.set prev (some s.hw)).getD
          s.multi.activeId none = some c := by
        rw [List.getD_eq_getElem?_getD, List.getElem?_set_ne hne,
          ← List.getD_eq_getElem?_getD, hctx]
      simp only [hget]
    unfold ctxMut
    rw [if_neg (by simp [hll, hne])]
    rw [hll]
    simp only [hsave, hload]
  · intro c hll ha1 ha2 hctx
    have hload : loadSlotToHw s s.multi.activeId
        = .ok { s with hw := c } := by
      unfold loadSlotToHw
      rw [if_neg (by omega), if_neg (by simp only [ha2]; simp)]
      simp only [hctx]
    unfold ctxMut
    rw [if_neg (by simp [hll])]
    rw [hll]
    simp only [hload]

/-- C9: `release_session` on an in-range, allocated slot zero-fills the
slot's stored context (every field becomes zero), marks the slot free and
clears the last-loaded marker when it named that slot; on an out-of-range
or unallocated id it changes nothing. -/
theorem c9_release_session (m : Multi) (id : Nat)
    (hal : m.allocated.length = 4) (hmax : m.maxSessions ≤ 4) :
    (id < m.maxSessions → m.allocated.getD id false = true →
        releaseSession m id = { m with
          allocated := m.allocated.set id false
          contexts := m.contexts.set id (some zeroCtx)
          lastLoaded := if m.lastLoaded = some id then none
                        else m.lastLoaded }) ∧
    (m.maxSessions ≤ id ∨ m.allocated.getD id false = false →
        releaseSession m id = m) ∧
    (zeroCtx.digest = List.replicate 64 0 ∧
      zeroCtx.buffer = List.replicate 256 0 ∧
      zeroCtx.key = List.replicate 64 0 ∧
      zeroCtx.ipad = List.replicate 128 0 ∧
      zeroCtx.opad = List.replicate 128 0 ∧
      zeroCtx.bufcnt = 0 ∧ zeroCtx.digcnt0 = 0 ∧ zeroCtx.digcnt1 = 0 ∧
      zeroCtx.method = 0 ∧ zeroCtx.blockSize = 0 ∧ zeroCtx.ivSize = 0 ∧
      zeroCtx.keyLen = 0 ∧ zeroCtx.sg0 = ⟨0, 0⟩ ∧ zeroCtx.sg1 = ⟨0, 0⟩) := by
  refine ⟨fun h1 h2 => ?_, fun h => ?_, by repeat' constructor⟩
  · unfold releaseSession
    rw [if_pos (by omega), if_pos ⟨h1, h2⟩]
  · unfold releaseSession
    by_cases hlen : id < m.allocated.length
    · rw [if_pos hlen, if_neg ?hcond]
      case hcond =>
        rintro ⟨hlt, hb⟩
        rcases h with h | h
        · omega
        · rw [h] at hb
          exact absurd hb (by simp)
    · rw [if_neg hlen]

/-- Witness for C7: two allocated slots, slot 0 loaded, slot 1 active —
the switch saves the hardware context into slot 0, loads slot 1 and marks
it last loaded. -/
theorem c7_witness :
    ((some 0 : Option Nat) = some 0 ∧ (0 : Nat) ≠ 1 ∧ (0 : Nat) < 2 ∧
      (1 : Nat) < 2) ∧
    (ctxMut ⟨⟨[some zeroCtx, some zeroCtx, none, none],
        [true, true, false, false], 1, some 0, 2⟩,
        zeroCtx⟩).multi.lastLoaded = some 1 :=
  ⟨⟨rfl, by decide, by decide, by decide⟩, by
    rw [(c7_lazy_context_switch ⟨⟨[some zeroCtx, some zeroCtx, none, none],
        [true, true, false, false], 1, some 0, 2⟩, zeroCtx⟩).2.1 0 zeroCtx
      rfl (by decide) (by decide) (by decide) (by decide) (by decide) rfl]⟩

/-- Witness for C9: releasing allocated slot 0 (which is also the
last-loaded slot) clears the marker and the allocation bit. -/
theorem c9_witness :
    ((0 : Nat) < 2 ∧
      ([true, false, false, false] : List Bool).getD 0 false = true) ∧
    (releaseSession ⟨[some zeroCtx, none, none, none],
        [true, false, false, false], 0, some 0, 2⟩ 0).lastLoaded = none ∧
    (releaseSession ⟨[some zeroCtx, none, none, none],
        [true, false, false, false], 0, some 0, 2⟩ 0).allocated
      = [false, false, false, false] :=
  ⟨⟨by decide, by decide⟩, by
    rw [(c9_release_session ⟨[some zeroCtx, none, none, none],
        [true, false, false, false], 0, some 0, 2⟩ 0 rfl (by decide)).1
      (by decide) (by decide)]
    simp, by
    rw [(c9_release_session ⟨[some zeroCtx, none, none, none],
        [true, false, false, false], 0, some 0, 2⟩ 0 rfl (by decide)).1
      (by decide) (by decide)]
    simp⟩

/-- C10: `SessionManager::<N>::new` succeeds exactly for `1 ≤ N ≤ 4`.  The
manager's own check (against its advertised `MAX_SESSIONS = 8`) passes for
every `N ≤ 8`, but the `MultiContextProvider` it constructs allows at most
4 sessions, so for `N` in `5..=8` construction still fails with
`InvalidSessionCount`. -/
theorem c10_session_manager_new :
    (∀ n, (∃ m, sessionManagerNew n = .ok m) ↔ (1 ≤ n ∧ n ≤ 4)) ∧
    (∀ n, 5 ≤ n → n ≤ 8 →
        ¬(n = 0 ∨ n > mgrMaxSessions) ∧
        sessionManagerNew n = .error .invalidSessionCount) := by
  constructor
  · intro n
    unfold sessionManagerNew multiNew mgrMaxSessions
    constructor
    · rintro ⟨m, hm⟩
      by_cases h1 : n = 0 ∨ n > 8
      · rw [if_pos h1] at hm
        exact absurd hm (by simp)
      · rw [if_neg h1] at hm
        by_cases h2 : n = 0 ∨ n > 4
        · rw [if_pos h2] at hm
          exact absurd hm (by simp)
        · omega
    · rintro ⟨h1, h4⟩
      rw [if_neg (by omega), if_neg (by omega)]
      exact ⟨_, rfl⟩
  · intro n h5 h8
    refine ⟨by unfold mgrMaxSessions; omega, ?_⟩
    unfold sessionManagerNew multiNew mgrMaxSessions
    rw [if_neg (by omega), if_pos (by omega)]

/-- `findIdx?` on a list whose elements all fail the predicate finds
exactly the position where a satisfying element was written. -/
lemma findIdx?_set_unique {α : Type} (l : List α) (p : α → Bool) (k : Nat)
    (v : α) (hk : k < l.length) (hall : ∀ a ∈ l, p a = false)
    (hv : p v = true) : (l.set k v).findIdx? p = some k := by
  suffices h : ∀ (l : List α) (k i : Nat), k < l.length →
      (∀ a ∈ l, p a = false) →
      List.findIdx? p (l.set k v) i = some (i + k) by
    simpa using h l k 0 hk hall
  intro l
  induction l with
  | nil => intro k i hk _; simp at hk
  | cons a t ih =>
      intro k i hk hall'
      cases k with
      | zero =>
          rw [List.set_cons_zero, List.findIdx?_cons, if_pos hv]
          simp
      | succ k' =>
          rw [List.set_cons_succ, List.findIdx?_cons,
            if_neg (by simp [hall' a (by simp)]),
            ih k' (i + 1) (by simpa using hk)
              (fun x hx => hall' x (by simp [hx]))]
          congr 1
          omega

/-- Every element of `l.take mx` is `true` when the first `mx` positions
of `l` hold `true`. -/
lemma mem_take_true (l : List Bool) (mx : Nat)
    (h : ∀ i, i < mx → l.getD i false = true) :
    ∀ b ∈ l.take mx, b = true := by
  intro b hb
  obtain ⟨i, hi, hval⟩ := List.getElem_of_mem hb
  have hilen : i < l.length := by
    have := hi; simp [List.length_take] at this; omega
  have himx : i < mx := by
    have := hi; simp [List.length_take] at this; omega
  have h2 := h i himx
  rw [List.getD_eq_getElem?_getD, List.getElem?_eq_getElem hilen] at h2
  rw [← hval, List.getElem_take]
  exact h2

/-- After `release_session(pid)` on a fully allocated provider, the next
`allocate_session` succeeds and returns exactly the freed slot id (the
lowest free index). -/
lemma allocate_after_release (p : Multi) (pid : Nat)
    (hlen : p.allocated.length = 4) (hmax : p.maxSessions ≤ 4)
    (hall : ∀ i, i < p.maxSessions → p.allocated.getD i false = true)
    (hpid : pid < p.maxSessions) :
    ∃ p', allocateSession (releaseSession p pid) = some (p', pid) := by
  have hrel : releaseSession p pid = { p with
      allocated := p.allocated.set pid false
      contexts := p.contexts.set pid (some zeroCtx)
      lastLoaded := if p.lastLoaded = some pid then none
                    else p.lastLoaded } := by
    unfold releaseSession
    rw [if_pos (by omega), if_pos ⟨hpid, hall pid hpid⟩]
  unfold allocateSession
  rw [hrel]
  have hfind : ((p.allocated.set pid false).take p.maxSessions).findIdx?
      (fun b => !b) = some pid := by
    rw [List.set_take]
    exact findIdx?_set_unique _ _ pid false
      (by simp [List.length_take]; omega)
      (fun b hb => by rw [mem_take_true p.allocated p.maxSessions hall b hb]; rfl)
      rfl
  rw [hfind]
  exact ⟨_, rfl⟩

/-- C8: capacity and slot reuse in `SessionManager`.  When every session
slot is active, `init_session` (hence each of
`init_sha256`/`init_sha384`/`init_sha512`) fails with `TooManySessions`
before touching anything, leaving the manager unchanged.  After any one
live session is finalized or cancelled, the very next `init_*` succeeds
and reuses the freed slot id — the lowest free index — both in the
manager and in the provider. -/
theorem c8_session_capacity :
    (∀ (m : Mgr) (alg : AlgorithmType),
        (∀ sl ∈ m.sessions, sl.state = SlotState.active) →
        initSession m alg = (m, .error .tooManySessions)) ∧
    (∀ (m : Mgr) (d : SDigest) (alg : AlgorithmType) (sl : SessionSlot),
        (∀ sl' ∈ m.sessions, sl'.state = SlotState.active) →
        m.sessions.get? d.slot = some sl →
        sl.sessionId = d.managerSessionId →
        d.provider.allocated.length = 4 →
        d.provider.maxSessions ≤ 4 →
        (∀ i, i < d.provider.maxSessions →
            d.provider.allocated.getD i false = true) →
        d.providerSessionId < d.provider.maxSessions →
        (((finalizeSession m d).2 = .ok () ∧
          ∃ d', (initSession (finalizeSession m d).1 alg).2 = .ok d' ∧
            d'.slot = d.slot ∧
            d'.providerSessionId = d.providerSessionId) ∧
         ((cancelSession m d).2 = .ok () ∧
          ∃ d', (initSession (cancelSession m d).1 alg).2 = .ok d' ∧
            d'.slot = d.slot ∧
            d'.providerSessionId = d.providerSessionId))) := by
  constructor
  · intro m alg hall
    unfold initSession
    have hnone : m.sessions.findIdx? (fun s => s.state == SlotState.free)
        = none :=
      List.findIdx?_eq_none_iff.mpr (fun x hx => by rw [hall x hx]; rfl)
    rw [hnone]
  · intro m d alg sl hall hget hsid hplen hpmax hpall hpid
    have hslot : d.slot < m.sessions.length := (List.get?_eq_some.mp hget).1
    have hfind : (m.sessions.set d.slot SessionSlot.dflt).findIdx?
        (fun s => s.state == SlotState.free) = some d.slot :=
      findIdx?_set_unique _ _ d.slot SessionSlot.dflt hslot
        (fun x hx => by rw [hall x hx]; rfl) rfl
    constructor
    · -- finalize, then init
      have hfin : finalizeSession m d
          = ({ m with
                controller := some (releaseSession
                  { d.provider with activeId := d.providerSessionId }
                  d.providerSessionId)
                sessions := m.sessions.set d.slot SessionSlot.dflt },
             .ok ()) := by
        unfold finalizeSession
        rw [hget]
        simp only [hsid, ne_eq, not_true_eq_false, if_false]
      rw [hfin]
      refine ⟨rfl, ?_⟩
      obtain ⟨p', hp'⟩ := allocate_after_release
        { d.provider with activeId := d.providerSessionId }
        d.providerSessionId hplen hpmax hpall hpid
      unfold initSession
      simp only [hfind, hp']
      exact ⟨_, rfl, rfl, rfl⟩
    · -- cancel, then init
      have hcan : cancelSession m d
          = ({ m with
                controller := some (releaseSession d.provider
                  d.providerSessionId)
                sessions := m.sessions.set d.slot SessionSlot.dflt },
             .ok ()) := by
        unfold cancelSession
        rw [hget]
        simp only [hsid, ne_eq, not_true_eq_false, if_false]
      rw [hcan]
      refine ⟨rfl, ?_⟩
      obtain ⟨p', hp'⟩ := allocate_after_release d.provider
        d.providerSessionId hplen hpmax hpall hpid
      unfold initSession
      simp only [hfind, hp']
      exact ⟨_, rfl, rfl, rfl⟩

/-- Witness for C8: a two-slot manager with both slots active rejects a
new session with `TooManySessions` and is left unchanged; after
finalizing the slot-0 session, the next init succeeds and reuses slot 0
(and provider slot 0). -/
theorem c8_witness :
    (([⟨SlotState.active, 5, some AlgorithmType.sha256⟩,
        ⟨SlotState.active, 6, some AlgorithmType.sha256⟩]
        : List SessionSlot).get? 0
      = some ⟨SlotState.active, 5, some AlgorithmType.sha256⟩) ∧
    initSession ⟨none, [⟨SlotState.active, 5, some AlgorithmType.sha256⟩,
        ⟨SlotState.active, 6, some AlgorithmType.sha256⟩], 7⟩
        AlgorithmType.sha256
      = (⟨none, [⟨SlotState.active, 5, some AlgorithmType.sha256⟩,
          ⟨SlotState.active, 6, some AlgorithmType.sha256⟩], 7⟩,
         .error .tooManySessions) ∧
    (finalizeSession ⟨none, [⟨SlotState.active, 5, some AlgorithmType.sha256⟩,
        ⟨SlotState.active, 6, some AlgorithmType.sha256⟩], 7⟩
      ⟨⟨[some zeroCtx, some zeroCtx, none, none], [true, true, false, false],
        0, some 0, 2⟩, 0, 5, 0⟩).2 = .ok () ∧
    ((initSession (finalizeSession
        ⟨none, [⟨SlotState.active, 5, some AlgorithmType.sha256⟩,
          ⟨SlotState.active, 6, some AlgorithmType.sha256⟩], 7⟩
        ⟨⟨[some zeroCtx, some zeroCtx, none, none],
          [true, true, false, false], 0, some 0, 2⟩, 0, 5, 0⟩).1
        AlgorithmType.sha256).2
      = .ok ⟨⟨[some zeroCtx, some zeroCtx, none, none],
          [true, true, false, false], 0, none, 2⟩, 0, 7, 0⟩) :=
  ⟨by decide,
   c8_session_capacity.1
     ⟨none, [⟨SlotState.active, 5, some AlgorithmType.sha256⟩,
       ⟨SlotState.active, 6, some AlgorithmType.sha256⟩], 7⟩
     AlgorithmType.sha256 (by decide),
   (c8_session_capacity.2
     ⟨none, [⟨SlotState.active, 5, some AlgorithmType.sha256⟩,
       ⟨SlotState.active, 6, some AlgorithmType.sha256⟩], 7⟩
     ⟨⟨[some zeroCtx, some zeroCtx, none, none], [true, true, false, false],
       0, some 0, 2⟩, 0, 5, 0⟩
     AlgorithmType.sha256 ⟨SlotState.active, 5, some AlgorithmType.sha256⟩
     (by decide) (by decide) rfl (by decide) (by decide)
     (by intro i hi; interval_cases i <;> decide) (by decide)).1.1,
   by rfl⟩

/-- Witness for C10: `N = 5` passes the `N ≤ 8` check yet construction
fails; `N = 4` succeeds. -/
theorem c10_witness :
    ((5 ≤ 5 ∧ 5 ≤ 8) ∧ (1 ≤ 4 ∧ 4 ≤ 4)) ∧
    (¬(5 = 0 ∨ 5 > mgrMaxSessions) ∧
      sessionManagerNew 5 = .error .invalidSessionCount) ∧
    sessionManagerNew 4
      = .ok ⟨some ⟨List.replicate 4 none, List.replicate 4 false, 0, none, 4⟩,
          List.replicate 4 SessionSlot.dflt, 0⟩ :=
  ⟨⟨⟨by norm_num, by norm_num⟩, ⟨by norm_num, by norm_num⟩⟩,
   c10_session_manager_new.2 5 (by norm_num) (by norm_num),
   by rfl⟩

end Aspeed
